import Mathlib

/-!
Verification of the IntelliNews / InsightPoint pipeline orchestration engine.

The repository snapshot ships the React frontend and the engine's design
documents (the DAG master reference, the pipeline library guide and the
compliance report), while the Python backend that implements the
orchestrator (`process_document_pipeline`, the DAG nodes, the merge and
persistence layer) is not part of the snapshot.  The definitions below are
therefore shallow models of that missing engine, built from the
specification and the in-repo design documents; each such definition says
so in its doc comment.  Confidences are modelled as rationals, matching the
spec's `confidence ∈ [0,1]` contract.
-/

/-- One derived attribute of a document (spec section 3): the eight facet
slots of the data model. -/
inductive Facet where
  | translation
  | entities
  | keywords
  | category
  | location
  | summary
  | sentiment
  | embeddingVector
deriving DecidableEq

/-- Modelled from the spec: the contents of a populated facet slot,
`{value, confidence, method}` (spec section 3; the `computedAt` timestamp is
bookkeeping metadata that no merge decision reads, so it is not modelled). -/
structure FacetValue where
  value : String
  confidence : ℚ
  method : String
deriving DecidableEq

/-- Modelled from the spec: a stored document's facet slots; a slot is either
fully absent or fully populated (spec section 3).  The identity, raw text and
language fields play no role in the merge claims and are kept out of the
per-facet state. -/
def Document := Facet → Option FacetValue

/-- Modelled from the spec: a Facet Outcome
`{stageName, value, confidence, method, succeeded, errorDetail}`
(spec section 3), produced by one stage execution. -/
structure FacetOutcome where
  stageName : Facet
  value : String
  confidence : ℚ
  method : String
  succeeded : Bool
  errorDetail : String
deriving DecidableEq

/-- Modelled from the spec: the Merge Engine's per-slot rule (spec section
4.3, DAG document "Universal Competitive Merging"): with a successful
outcome in hand, an empty slot adopts the new value unconditionally; a
populated slot adopts the new value exactly when the new confidence is
greater than or equal to the stored one, and is preserved untouched
otherwise. -/
def mergeSlot (stored : Option FacetValue) (o : FacetOutcome) : Option FacetValue :=
  match stored with
  | none => some ⟨o.value, o.confidence, o.method⟩
  | some s =>
      if s.confidence ≤ o.confidence then some ⟨o.value, o.confidence, o.method⟩
      else some s

/-- Modelled from the spec: how one Facet Outcome acts on the slot of facet
`f`: outcomes for other facets, and outcomes with `succeeded = false`, never
alter the slot (spec section 4.3). -/
def mergeStep (f : Facet) (s : Option FacetValue) (o : FacetOutcome) : Option FacetValue :=
  if o.stageName = f ∧ o.succeeded = true then mergeSlot s o else s

/-- Modelled from the spec: the Merge Engine's contract
`merge(stored, outcomes) -> Document` (spec section 4.3), reconciling every
Facet Outcome of a Run Context against the stored snapshot, slot by slot. -/
def merge (stored : Document) (outs : List FacetOutcome) : Document :=
  fun f => List.foldl (mergeStep f) (stored f) outs

/-- The two pipeline modes (spec section 4.1). -/
inductive Mode where
  | Reduced
  | Full
deriving DecidableEq

namespace ModePolicy

/-- Modelled from the spec: the Mode Policy
`decide(requestedFacets) -> Mode` (spec section 4.1, DAG document "Mode
Decision Branching"): Full exactly when the requested set meets
`{summary, sentiment}`, Reduced otherwise. -/
def decide (req : List Facet) : Mode :=
  if Facet.summary ∈ req ∨ Facet.sentiment ∈ req then Mode.Full else Mode.Reduced

end ModePolicy

/-- Modelled from the spec: the normalized result of one Capability Adapter
invocation, `(value, confidence, method, succeeded, error)` (spec section
4.5). -/
structure AdapterResult where
  value : String
  confidence : ℚ
  method : String
  succeeded : Bool
  error : String

/-- Modelled from the spec: a Capability Adapter is an opaque function from
the stage's input text to a normalized result (spec section 4.5). -/
def Adapter := String → AdapterResult

/-- Modelled from the spec: per-stage execution over an `adapterChain`
(spec section 4.2): adapters are tried in declared order, the first success
produces the Facet Outcome and stops the chain, and if every adapter fails
the stage records `succeeded = false` carrying the last error.  The second
component counts how many adapters were actually invoked. -/
def runStage (f : Facet) (input : String) (lastErr : String) : List Adapter → FacetOutcome × ℕ
  | [] => (⟨f, "", 0, "", false, lastErr⟩, 0)
  | a :: rest =>
      let r := a input
      if r.succeeded = true then (⟨f, r.value, r.confidence, r.method, true, ""⟩, 1)
      else ((runStage f input r.error rest).1, (runStage f input r.error rest).2 + 1)

/-- Modelled from the spec: a Stage Graph node (spec section 3): its facet,
the facets that must complete first, and the modes that require it.  The
adapter chain is supplied separately to the scheduler, as an assignment of
adapters to facets. -/
structure Stage where
  name : Facet
  dependsOn : List Facet
  requiredForModes : List Mode
deriving DecidableEq

/-- Modelled from the spec: the static Stage Graph, from the DAG document's
interdependency table and mode flows: translation first; entities, keywords,
category and summary computed on translated text; location resolved from the
extracted entities; sentiment analyzed on the summary; the embedding vector
refreshed from the keyword anchors (the Reduced flow generates the vector
without a summary); summary and sentiment gated to Full mode. -/
def stageGraph : List Stage :=
  [ ⟨Facet.translation, [], [Mode.Reduced, Mode.Full]⟩
  , ⟨Facet.entities, [Facet.translation], [Mode.Reduced, Mode.Full]⟩
  , ⟨Facet.keywords, [Facet.translation], [Mode.Reduced, Mode.Full]⟩
  , ⟨Facet.category, [Facet.translation], [Mode.Reduced, Mode.Full]⟩
  , ⟨Facet.location, [Facet.entities], [Mode.Reduced, Mode.Full]⟩
  , ⟨Facet.summary, [Facet.translation], [Mode.Full]⟩
  , ⟨Facet.sentiment, [Facet.summary], [Mode.Full]⟩
  , ⟨Facet.embeddingVector, [Facet.keywords], [Mode.Reduced, Mode.Full]⟩ ]

/-- The declared dependencies of a facet's stage in the Stage Graph. -/
def dependsOnOf (f : Facet) : List Facet :=
  match stageGraph.find? (fun st => st.name = f) with
  | some st => st.dependsOn
  | none => []

/-- The stages a mode requires, read off the Stage Graph. -/
def requiredForMode (m : Mode) : List Facet :=
  (stageGraph.filter (fun st => m ∈ st.requiredForModes)).map Stage.name

/-- One closure step: add the declared dependencies of every facet present. -/
def addDeps (l : List Facet) : List Facet :=
  (l ++ l.flatMap dependsOnOf).dedup

/-- Iterated dependency-closure steps. -/
def closeDeps : ℕ → List Facet → List Facet
  | 0, l => l
  | n + 1, l => closeDeps n (addDeps l)

/-- Modelled from the spec: the Scheduler's effective stage set (spec
section 4.2): the stages required by the decided mode, the explicitly
requested facets, and their transitive dependencies.  Eight closure steps
suffice for an eight-node graph. -/
def effectiveSet (req : List Facet) : List Facet :=
  closeDeps 8 (requiredForMode (ModePolicy.decide req) ++ req)

/-- Wave computation with fuel: a stage's wave index is one past the largest
wave index among its dependencies; dependency-free stages run in wave 0. -/
def wIAux : ℕ → Facet → ℕ
  | 0, _ => 0
  | n + 1, f => (dependsOnOf f).foldl (fun m d => max m (wIAux n d + 1)) 0

/-- Modelled from the spec: the wave in which the Scheduler runs a stage
(spec section 4.2): all stages whose dependencies are satisfied run
concurrently, and waves are separated by dependency barriers. -/
def waveIndex (f : Facet) : ℕ := wIAux 8 f

/-- The Run Context's accumulated per-facet outcomes. -/
def Ctx := Facet → Option FacetOutcome

/-- The empty Run Context at invocation start. -/
def emptyCtx : Ctx := fun _ => none

/-- Modelled from the spec: the text a stage analyzes, resolved against the
outcomes visible at its barrier: the output of its first dependency with a
successful outcome, or the document's raw text when no upstream value is
visible (spec sections 4.2 and 5: dependents of a failed stage substitute a
defined value rather than aborting). -/
def visibleText (raw : String) (ctx : Ctx) : List Facet → String
  | [] => raw
  | d :: rest =>
      match ctx d with
      | some o => if o.succeeded = true then o.value else visibleText raw ctx rest
      | none => visibleText raw ctx rest

/-- Modelled from the spec: one scheduler wave (spec sections 4.2 and 5):
every effective stage whose wave index is `k` executes against the context
frozen at the preceding barrier; outcomes of the wave become visible only
after the wave, so within-wave completion order cannot matter. -/
def waveStep (adapters : Facet → List Adapter) (raw : String) (eff : List Facet)
    (ctx : Ctx) (k : ℕ) : Ctx :=
  fun f =>
    if f ∈ eff ∧ waveIndex f = k then
      some (runStage f (visibleText raw ctx (dependsOnOf f)) "" (adapters f)).1
    else ctx f

/-- Modelled from the spec: the Scheduler's run
`run(doc, requestedFacets) -> RunContext` (spec section 4.2): waves execute
strictly sequentially in increasing wave index; nine waves cover the
eight-node graph. -/
def runWaves (adapters : Facet → List Adapter) (raw : String) (eff : List Facet) : Ctx :=
  (List.range 9).foldl (waveStep adapters raw eff) emptyCtx

/-- The eight facets, in stage-graph order. -/
def allFacets : List Facet :=
  [ Facet.translation, Facet.entities, Facet.keywords, Facet.category
  , Facet.location, Facet.summary, Facet.sentiment, Facet.embeddingVector ]

/-- The list of Facet Outcomes held by a Run Context. -/
def ctxOutcomes (ctx : Ctx) : List FacetOutcome :=
  allFacets.filterMap ctx

/-- Modelled from the spec: a cancellable run (spec section 5): with no
cancellation every wave runs and the run completes; a cancellation arriving
before wave `k` lets the waves already started finish but starts no further
wave, leaving a partial Run Context and a completed flag that is true only
when every wave had already run. -/
def runWithCancel (adapters : Facet → List Adapter) (raw : String) (eff : List Facet) :
    Option ℕ → Ctx × Bool
  | none => (runWaves adapters raw eff, true)
  | some k => ((List.range (min k 9)).foldl (waveStep adapters raw eff) emptyCtx, decide (9 ≤ k))

/-- Modelled from the spec: the Persistence Gateway boundary (spec sections
4.4 and 5): a completed Run Context is merged against the stored snapshot
and committed; a partial Run Context from a cancelled run is discarded
without being merged, leaving the stored document as it was. -/
def commitRun (stored : Document) (run : Ctx × Bool) : Document :=
  if run.2 = true then merge stored (ctxOutcomes run.1) else stored

/-- Modelled from the spec: the static vector that the mocked embeddings DAG
node returns; the compliance report records
`app/services/dag/nodes/embeddings.py` (absent from this snapshot) as
returning a static vector where the approved 1024-dimension model should
run.  The concrete constants are unspecified in the documents; only their
independence from the input matters. -/
def staticEmbeddingVector : List ℚ := List.replicate 1024 0

/-- Modelled from the spec: the mocked embeddings node, a constant function
of its input text. -/
def embeddingsNode (_input : String) : List ℚ := staticEmbeddingVector

/-! ## Concrete fixtures used by witnesses -/

/-- A stored document whose sentiment slot holds confidence 0.70. -/
def wC1doc : Document :=
  fun g => if g = Facet.sentiment then some ⟨"stored sentiment", mkRat 7 10, "bertweet"⟩ else none

/-- A successful sentiment outcome with confidence 0.70: the merge tie case. -/
def wC1out : FacetOutcome :=
  ⟨Facet.sentiment, "new sentiment", mkRat 7 10, "roberta", true, ""⟩

/-- A stored document whose keyword slot holds confidence 0.50. -/
def wC2doc : Document :=
  fun g => if g = Facet.keywords then some ⟨"kw v1", mkRat 1 2, "rake"⟩ else none

/-- Two successive keyword runs, confidences 0.75 then 0.60. -/
def wC2runs : List (List FacetOutcome) :=
  [ [⟨Facet.keywords, "kw v2", mkRat 3 4, "keybert", true, ""⟩]
  , [⟨Facet.keywords, "kw v3", mkRat 3 5, "t5", true, ""⟩] ]

/-- A freshly ingested document: every facet slot empty. -/
def wC5doc : Document := fun _ => none

/-- A run requesting keywords and entities in which the entity stage failed
every adapter while the keyword stage succeeded. -/
def wC5outs : List FacetOutcome :=
  [ ⟨Facet.keywords, "kw", mkRat 4 5, "keybert", true, ""⟩
  , ⟨Facet.entities, "", 0, "gliner", false, "all adapters failed"⟩ ]

/-- An adapter chain whose first adapter fails and whose second and third
succeed: the stage must stop at the second. -/
def wC6chain : List Adapter :=
  [ fun _ => ⟨"", 0, "gliner", false, "gpu offline"⟩
  , fun s => ⟨"entities of " ++ s, mkRat 3 5, "spacy", true, ""⟩
  , fun _ => ⟨"unused", 1, "later adapter", true, ""⟩ ]

/-- Adapters that succeed everywhere, translating by tagging the input. -/
def wC8adapters : Facet → List Adapter :=
  fun _ => [fun s => ⟨"en(" ++ s ++ ")", mkRat 9 10, "nllb", true, ""⟩]

/-- An effective set scheduling translation in wave 0 and summary in wave 1. -/
def wC8eff : List Facet := [Facet.translation, Facet.summary]

/-- A stored document whose keyword slot is populated, to observe that a
cancelled run leaves it as is. -/
def wC9doc : Document :=
  fun g => if g = Facet.keywords then some ⟨"kw", mkRat 1 2, "rake"⟩ else none

/-- Adapters for the cancelled run. -/
def wC9adapters : Facet → List Adapter :=
  fun _ => [fun _ => ⟨"v", 1, "m", true, ""⟩]

/-- Effective set for the cancelled run. -/
def wC9eff : List Facet := [Facet.translation, Facet.keywords]

/-! ## Merge Engine lemmas -/

/-- Acting on a populated slot can only keep or raise its confidence. -/
theorem mergeStep_some_mono (o : FacetOutcome) (f : Facet) (v : FacetValue) :
    ∃ w, mergeStep f (some v) o = some w ∧ v.confidence ≤ w.confidence := by
  by_cases h : o.stageName = f ∧ o.succeeded = true
  · by_cases h2 : v.confidence ≤ o.confidence
    · exact ⟨⟨o.value, o.confidence, o.method⟩, by simp [mergeStep, mergeSlot, h, h2], h2⟩
    · exact ⟨v, by simp [mergeStep, mergeSlot, h, h2], le_refl _⟩
  · exact ⟨v, by simp [mergeStep, h], le_refl _⟩

/-- Folding a run's outcomes over a populated slot keeps it populated and
never lowers its confidence. -/
theorem slotFold_mono (f : Facet) (outs : List FacetOutcome) :
    ∀ (s : Option FacetValue) (v : FacetValue), s = some v →
      ∃ w, List.foldl (mergeStep f) s outs = some w ∧ v.confidence ≤ w.confidence := by
  induction outs with
  | nil => exact fun s v hs => ⟨v, by simp [hs], le_refl _⟩
  | cons o rest ih =>
      intro s v hs
      subst hs
      obtain ⟨w, hw, hvw⟩ := mergeStep_some_mono o f v
      obtain ⟨w', hw', hww'⟩ := ih (mergeStep f (some v) o) w hw
      exact ⟨w', by simpa [List.foldl] using hw', le_trans hvw hww'⟩

/-- Replaying a run's outcomes over the slot they already produced changes
nothing. -/
theorem slotFold_idem (f : Facet) (outs : List FacetOutcome) :
    ∀ s : Option FacetValue,
      List.foldl (mergeStep f) (List.foldl (mergeStep f) s outs) outs =
        List.foldl (mergeStep f) s outs := by
  induction outs with
  | nil => intro s; rfl
  | cons o rest ih =>
      intro s
      simp only [List.foldl_cons]
      by_cases hrel : o.stageName = f ∧ o.succeeded = true
      · have hs1 : ∃ u, mergeStep f s o = some u := by
          rcases s with _ | v
          · exact ⟨⟨o.value, o.confidence, o.method⟩, by simp [mergeStep, hrel, mergeSlot]⟩
          · obtain ⟨w, hw, _⟩ := mergeStep_some_mono o f v
            exact ⟨w, hw⟩
        obtain ⟨u, hu⟩ := hs1
        obtain ⟨vt, hvt, huvt⟩ := slotFold_mono f rest (mergeStep f s o) u hu
        by_cases hle : vt.confidence ≤ o.confidence
        · have hs1u : mergeStep f s o = some ⟨o.value, o.confidence, o.method⟩ := by
            rcases s with _ | v
            · simp [mergeStep, hrel, mergeSlot]
            · by_cases h2 : v.confidence ≤ o.confidence
              · simp [mergeStep, hrel, mergeSlot, h2]
              · exfalso
                have hs1v : mergeStep f (some v) o = some v := by
                  simp [mergeStep, hrel, mergeSlot, h2]
                rw [hs1v] at hu
                have hvu : v.confidence = u.confidence :=
                  congrArg FacetValue.confidence (Option.some.inj hu)
                exact h2 (le_trans (le_of_eq hvu) (le_trans huvt hle))
          have hstep : mergeStep f (List.foldl (mergeStep f) (mergeStep f s o) rest) o =
              some ⟨o.value, o.confidence, o.method⟩ := by
            rw [hvt]
            simp [mergeStep, hrel, mergeSlot, hle]
          rw [hstep, ← hs1u]
        · have hstep : mergeStep f (List.foldl (mergeStep f) (mergeStep f s o) rest) o =
              List.foldl (mergeStep f) (mergeStep f s o) rest := by
            rw [hvt]
            simp [mergeStep, hrel, mergeSlot, hle]
          rw [hstep]
          exact ih (mergeStep f s o)
      · have h1 : mergeStep f (List.foldl (mergeStep f) (mergeStep f s o) rest) o =
            List.foldl (mergeStep f) (mergeStep f s o) rest := by
          simp [mergeStep, hrel]
        rw [h1]
        exact ih (mergeStep f s o)

/-- Slots all of whose matching outcomes failed are left untouched by the
fold. -/
theorem slotFold_frame (f : Facet) (outs : List FacetOutcome) :
    ∀ s : Option FacetValue, (∀ o ∈ outs, o.stageName = f → o.succeeded = false) →
      List.foldl (mergeStep f) s outs = s := by
  induction outs with
  | nil => intro s _; rfl
  | cons o rest ih =>
      intro s h
      have hstep : mergeStep f s o = s := by
        have hne : ¬(o.stageName = f ∧ o.succeeded = true) := by
          rintro ⟨h1, h2⟩
          have := h o (List.mem_cons_self o rest) h1
          rw [this] at h2
          exact Bool.false_ne_true h2
        simp [mergeStep, hne]
      simp only [List.foldl_cons, hstep]
      exact ih s (fun o' ho' => h o' (List.mem_cons_of_mem o ho'))

/-- Monotonicity carries over any sequence of merged runs. -/
theorem mergeRuns_mono (runs : List (List FacetOutcome)) :
    ∀ (stored : Document) (f : Facet) (v : FacetValue), stored f = some v →
      ∃ w, (List.foldl merge stored runs) f = some w ∧ v.confidence ≤ w.confidence := by
  induction runs with
  | nil => exact fun stored f v h => ⟨v, by simpa [List.foldl] using h, le_refl _⟩
  | cons r rs ih =>
      intro stored f v h
      obtain ⟨w, hw, hvw⟩ := slotFold_mono f r (stored f) v h
      obtain ⟨w', hw', hww'⟩ := ih (merge stored r) f w hw
      exact ⟨w', by simpa [List.foldl] using hw', le_trans hvw hww'⟩

/-! ## Claims about the Merge Engine and Mode Policy -/

/-- Claim C1: for every stored document and every Facet Outcome with
`succeeded = true`, the Merge Engine adopts the new value unconditionally
when the stored facet slot is empty, and when a stored value exists it
adopts the new value exactly when `outcome.confidence >= stored confidence`
(ties adopt the new value) and otherwise leaves the stored value
untouched. -/
theorem C1_competitive_merge_adoption (stored : Document) (o : FacetOutcome)
    (h : o.succeeded = true) :
    (stored o.stageName = none →
      merge stored [o] o.stageName = some ⟨o.value, o.confidence, o.method⟩)
    ∧ ∀ s : FacetValue, stored o.stageName = some s →
        (s.confidence ≤ o.confidence →
          merge stored [o] o.stageName = some ⟨o.value, o.confidence, o.method⟩)
        ∧ (o.confidence < s.confidence → merge stored [o] o.stageName = some s) := by
  refine ⟨fun hn => ?_, fun s hs => ⟨fun hle => ?_, fun hlt => ?_⟩⟩
  · simp [merge, mergeStep, mergeSlot, h, hn]
  · simp [merge, mergeStep, mergeSlot, h, hs, hle]
  · simp [merge, mergeStep, mergeSlot, h, hs, not_le.mpr hlt]

/-- Witness for C1: stored sentiment confidence 0.70 against a new outcome
of confidence 0.70 adopts the new value (overwrite on tie). -/
theorem C1_competitive_merge_adoption_witness :
    merge wC1doc [wC1out] Facet.sentiment = some ⟨"new sentiment", mkRat 7 10, "roberta"⟩ :=
  ((C1_competitive_merge_adoption wC1doc wC1out rfl).2
      ⟨"stored sentiment", mkRat 7 10, "bertweet"⟩ rfl).1 (le_refl _)

/-- Claim C2: for every document and every sequence of merged runs, the
confidence stored in a populated facet slot never decreases: after one more
run, and after any sequence of runs, the slot still holds a value whose
confidence is at least the one stored before. -/
theorem C2_confidence_monotonicity (stored : Document) (f : Facet) (v : FacetValue)
    (h : stored f = some v) :
    (∀ outs : List FacetOutcome,
        ∃ w, merge stored outs f = some w ∧ v.confidence ≤ w.confidence)
    ∧ ∀ runs : List (List FacetOutcome),
        ∃ w, (List.foldl merge stored runs) f = some w ∧ v.confidence ≤ w.confidence :=
  ⟨fun outs => slotFold_mono f outs (stored f) v h,
   fun runs => mergeRuns_mono runs stored f v h⟩

/-- Witness for C2: a keyword slot stored at confidence 0.50, after runs of
confidence 0.75 and 0.60, still holds at least 0.50. -/
theorem C2_confidence_monotonicity_witness :
    ∃ w, (List.foldl merge wC2doc wC2runs) Facet.keywords = some w
      ∧ mkRat 1 2 ≤ w.confidence :=
  (C2_confidence_monotonicity wC2doc Facet.keywords ⟨"kw v1", mkRat 1 2, "rake"⟩ rfl).2 wC2runs

/-- Claim C3: the Mode Policy returns Full exactly when the requested set
meets `{summary, sentiment}` and Reduced otherwise; in particular the empty
request and a keywords request are Reduced, while a sentiment request and a
summary-with-entities request are Full. -/
theorem C3_mode_policy_decide (req : List Facet) :
    (ModePolicy.decide req = Mode.Full ↔ Facet.summary ∈ req ∨ Facet.sentiment ∈ req)
    ∧ (ModePolicy.decide req = Mode.Reduced ↔ ¬(Facet.summary ∈ req ∨ Facet.sentiment ∈ req))
    ∧ ModePolicy.decide [] = Mode.Reduced
    ∧ ModePolicy.decide [Facet.keywords] = Mode.Reduced
    ∧ ModePolicy.decide [Facet.sentiment] = Mode.Full
    ∧ ModePolicy.decide [Facet.summary, Facet.entities] = Mode.Full := by
  refine ⟨?_, ?_, by decide, by decide, by decide, by decide⟩
  · by_cases h : Facet.summary ∈ req ∨ Facet.sentiment ∈ req
    · simp [ModePolicy.decide, h]
    · simp [ModePolicy.decide, h]
  · by_cases h : Facet.summary ∈ req ∨ Facet.sentiment ∈ req
    · simp [ModePolicy.decide, h]
    · simp [ModePolicy.decide, h]

/-- Claim C4: replaying the same Run Context against the already-merged
result changes nothing: `merge (merge stored outs) outs = merge stored
outs`, so a retry after a crash between computing and persisting is safe. -/
theorem C4_merge_idempotent_replay (stored : Document) (outs : List FacetOutcome) :
    merge (merge stored outs) outs = merge stored outs := by
  funext f
  exact slotFold_idem f outs (stored f)

/-- Claim C5: facet slots whose matching outcomes all failed (or that have
no matching outcome at all) are unchanged by the merge. -/
theorem C5_failed_outcomes_frame (stored : Document) (outs : List FacetOutcome) (f : Facet)
    (h : ∀ o ∈ outs, o.stageName = f → o.succeeded = false) :
    merge stored outs f = stored f :=
  slotFold_frame f outs (stored f) h

/-- Witness for C5: in a keywords-and-entities run where the entity stage
failed every adapter, the entity slot stays absent (not corrupted) while the
keyword facet is persisted. -/
theorem C5_failed_outcomes_frame_witness :
    merge wC5doc wC5outs Facet.entities = none
    ∧ merge wC5doc wC5outs Facet.keywords = some ⟨"kw", mkRat 4 5, "keybert"⟩ :=
  ⟨(C5_failed_outcomes_frame wC5doc wC5outs Facet.entities (by decide)).trans rfl, by decide⟩

/-! ## Claims about stage execution and the scheduler -/

/-- Claim C6: adapters in a stage's chain are tried in declared order; the
Facet Outcome is produced by exactly the first adapter that succeeds, with
later adapters not invoked (the invocation count stops at that adapter);
when every adapter fails, the stage records `succeeded = false` carrying the
last adapter's error, having invoked the whole chain. -/
theorem C6_adapter_chain_order (f : Facet) (input e : String) (chain : List Adapter) :
    (∀ (i : ℕ) (hi : i < chain.length),
        (∀ (j : ℕ) (hj : j < i), ((chain.get ⟨j, hj.trans hi⟩) input).succeeded = false) →
        ((chain.get ⟨i, hi⟩) input).succeeded = true →
        (runStage f input e chain).1 =
          ⟨f, ((chain.get ⟨i, hi⟩) input).value, ((chain.get ⟨i, hi⟩) input).confidence,
            ((chain.get ⟨i, hi⟩) input).method, true, ""⟩
        ∧ (runStage f input e chain).2 = i + 1)
    ∧ ((∀ a ∈ chain, (a input).succeeded = false) →
        (runStage f input e chain).1.succeeded = false
        ∧ (runStage f input e chain).2 = chain.length
        ∧ ∀ a', chain.getLast? = some a' →
            (runStage f input e chain).1.errorDetail = (a' input).error) := by
  induction chain generalizing e with
  | nil =>
      constructor
      · intro i hi
        exact absurd hi (by simp)
      · intro _
        refine ⟨rfl, rfl, ?_⟩
        intro a' ha'
        simp at ha'
  | cons a rest ih =>
      constructor
      · intro i hi hprev hsucc
        cases i with
        | zero =>
            have h0 : (a input).succeeded = true := hsucc
            constructor
            · simp [runStage, h0]
            · simp [runStage, h0]
        | succ i' =>
            have hhead : (a input).succeeded = false := hprev 0 (Nat.succ_pos i')
            have hi' : i' < rest.length := Nat.lt_of_succ_lt_succ hi
            have hprev' : ∀ (j : ℕ) (hj : j < i'),
                ((rest.get ⟨j, hj.trans hi'⟩) input).succeeded = false := by
              intro j hj
              exact hprev (j + 1) (Nat.succ_lt_succ hj)
            have hsucc' : ((rest.get ⟨i', hi'⟩) input).succeeded = true := hsucc
            obtain ⟨h1, h2⟩ := (ih ((a input).error)).1 i' hi' hprev' hsucc'
            constructor
            · simp only [runStage, hhead, Bool.false_eq_true, if_false]
              exact h1
            · simp only [runStage, hhead, Bool.false_eq_true, if_false]
              omega
      · intro hall
        have hhead : (a input).succeeded = false := hall a (List.mem_cons_self a rest)
        have hrest : ∀ b ∈ rest, (b input).succeeded = false :=
          fun b hb => hall b (List.mem_cons_of_mem a hb)
        obtain ⟨g1, g2, g3⟩ := (ih ((a input).error)).2 hrest
        refine ⟨?_, ?_, ?_⟩
        · simp only [runStage, hhead, Bool.false_eq_true, if_false]
          exact g1
        · simp only [runStage, hhead, Bool.false_eq_true, if_false, List.length_cons]
          omega
        · intro a' ha'
          cases rest with
          | nil =>
              have haa : a = a' := by simpa using ha'
              subst haa
              simp [runStage, hhead]
          | cons b rest' =>
              have hl : (a :: b :: rest').getLast? = (b :: rest').getLast? := by
                simp [List.getLast?_cons_cons]
              rw [hl] at ha'
              have := g3 a' ha'
              simp only [runStage, hhead, Bool.false_eq_true, if_false]
              exact this

/-- Witness for C6: with a chain whose first adapter fails and whose second
and third succeed, the stage's outcome comes from the second adapter and
exactly two adapters were invoked. -/
theorem C6_adapter_chain_order_witness :
    (runStage Facet.entities "txt" "" wC6chain).1 =
      ⟨Facet.entities, "entities of txt", mkRat 3 5, "spacy", true, ""⟩
    ∧ (runStage Facet.entities "txt" "" wC6chain).2 = 2 :=
  (C6_adapter_chain_order Facet.entities "txt" "" wC6chain).1 1 (by decide)
    (fun j hj => by
      have hj0 : j = 0 := Nat.lt_one_iff.mp hj
      subst hj0
      rfl)
    rfl

/-- A facet outside the effective stage set is never executed and never
appears in the Run Context. -/
theorem runWaves_not_mem (adapters : Facet → List Adapter) (raw : String)
    (eff : List Facet) (f : Facet) (h : f ∉ eff) :
    runWaves adapters raw eff f = none := by
  have key : ∀ (l : List ℕ) (ctx : Ctx), ctx f = none →
      (List.foldl (waveStep adapters raw eff) ctx l) f = none := by
    intro l
    induction l with
    | nil => exact fun ctx hc => hc
    | cons k ks ih =>
        intro ctx hc
        refine ih _ ?_
        show waveStep adapters raw eff ctx k f = none
        simp [waveStep, h, hc]
  exact key (List.range 9) emptyCtx rfl

/-- Claim C7: a translate-only request excludes the sentiment stage from the
effective stage set, so no sentiment score is produced by its run; a
sentiment request includes its mandatory prerequisites translation and
summarization in the effective set, and they are scheduled in strictly
earlier waves than the sentiment stage. -/
theorem C7_mode_gating_prerequisites :
    Facet.sentiment ∉ effectiveSet [Facet.translation]
    ∧ (∀ (adapters : Facet → List Adapter) (raw : String),
        runWaves adapters raw (effectiveSet [Facet.translation]) Facet.sentiment = none)
    ∧ Facet.sentiment ∈ effectiveSet [Facet.sentiment]
    ∧ Facet.translation ∈ effectiveSet [Facet.sentiment]
    ∧ Facet.summary ∈ effectiveSet [Facet.sentiment]
    ∧ waveIndex Facet.translation < waveIndex Facet.sentiment
    ∧ waveIndex Facet.summary < waveIndex Facet.sentiment := by
  refine ⟨by decide, ?_, by decide, by decide, by decide, by decide, by decide⟩
  intro adapters raw
  exact runWaves_not_mem adapters raw _ _ (by decide)

/-- A wave leaves untouched every facet not executing in it. -/
theorem waveStep_notat (adapters : Facet → List Adapter) (raw : String) (eff : List Facet)
    (ctx : Ctx) (k : ℕ) (f : Facet) (h : ¬(f ∈ eff ∧ waveIndex f = k)) :
    waveStep adapters raw eff ctx k f = ctx f := by
  simp only [waveStep]
  rw [if_neg h]

/-- A wave executes every effective facet whose wave index it is, against
the context frozen at the preceding barrier. -/
theorem waveStep_at (adapters : Facet → List Adapter) (raw : String) (eff : List Facet)
    (ctx : Ctx) (k : ℕ) (f : Facet) (h1 : f ∈ eff) (h2 : waveIndex f = k) :
    waveStep adapters raw eff ctx k f =
      some (runStage f (visibleText raw ctx (dependsOnOf f)) "" (adapters f)).1 := by
  simp only [waveStep]
  rw [if_pos ⟨h1, h2⟩]

/-- Claim C8: a stage depending exactly on translation, scheduled in the
wave after the translation stage, observes the translated text produced by
the successful translation outcome — not the raw text and not a default —
because no outcome becomes visible before its wave's barrier. -/
theorem C8_barrier_ordering (adapters : Facet → List Adapter) (raw : String)
    (eff : List Facet) (f : Facet)
    (hdep : dependsOnOf f = [Facet.translation])
    (hf : f ∈ eff) (ht : Facet.translation ∈ eff)
    (hsucc : (runStage Facet.translation raw "" (adapters Facet.translation)).1.succeeded = true) :
    runWaves adapters raw eff f =
      some (runStage f
        ((runStage Facet.translation raw "" (adapters Facet.translation)).1.value)
        "" (adapters f)).1 := by
  have wf : waveIndex f = 1 := by
    have h0 : waveIndex f = List.foldl (fun m d => max m (wIAux 7 d + 1)) 0 (dependsOnOf f) := rfl
    rw [h0, hdep]
    decide
  have wt : waveIndex Facet.translation = 0 := by decide
  have hr : List.range 9 = [0, 1, 2, 3, 4, 5, 6, 7, 8] := rfl
  unfold runWaves
  rw [hr]
  simp only [List.foldl_cons, List.foldl_nil]
  rw [waveStep_notat adapters raw eff _ 8 f (by simp [wf])]
  rw [waveStep_notat adapters raw eff _ 7 f (by simp [wf])]
  rw [waveStep_notat adapters raw eff _ 6 f (by simp [wf])]
  rw [waveStep_notat adapters raw eff _ 5 f (by simp [wf])]
  rw [waveStep_notat adapters raw eff _ 4 f (by simp [wf])]
  rw [waveStep_notat adapters raw eff _ 3 f (by simp [wf])]
  rw [waveStep_notat adapters raw eff _ 2 f (by simp [wf])]
  rw [waveStep_at adapters raw eff _ 1 f hf wf]
  rw [hdep]
  have hc0 : (waveStep adapters raw eff emptyCtx 0) Facet.translation =
      some (runStage Facet.translation raw "" (adapters Facet.translation)).1 := by
    rw [waveStep_at adapters raw eff emptyCtx 0 Facet.translation ht wt]
    rfl
  simp only [visibleText]
  rw [hc0]
  simp [hsucc]

/-- Witness for C8: with concrete adapters, raw text in a foreign language
translated in wave 0, the summary stage in wave 1 receives the translated
text `en(hola mundo)`, not the raw text. -/
theorem C8_barrier_ordering_witness :
    runWaves wC8adapters "hola mundo" wC8eff Facet.summary =
      some (runStage Facet.summary
        ((runStage Facet.translation "hola mundo" "" (wC8adapters Facet.translation)).1.value)
        "" (wC8adapters Facet.summary)).1
    ∧ (runStage Facet.translation "hola mundo" "" (wC8adapters Facet.translation)).1.value =
        "en(hola mundo)" :=
  ⟨C8_barrier_ordering wC8adapters "hola mundo" wC8eff Facet.summary (by decide) (by decide)
      (by decide) rfl,
   by decide⟩

/-- Claim C9: a run cancelled before its waves are complete commits nothing:
the partial Run Context is discarded without being merged and the stored
document is unchanged; an uncancelled run commits the full merged
document. -/
theorem C9_cancellation_atomicity (stored : Document) (adapters : Facet → List Adapter)
    (raw : String) (eff : List Facet) (k : ℕ) (h : k < 9) :
    commitRun stored (runWithCancel adapters raw eff (some k)) = stored
    ∧ commitRun stored (runWithCancel adapters raw eff none) =
        merge stored (ctxOutcomes (runWaves adapters raw eff)) := by
  constructor
  · have hk : decide (9 ≤ k) = false := decide_eq_false (by omega)
    simp [commitRun, runWithCancel, hk]
  · simp [commitRun, runWithCancel]

/-- Witness for C9: cancelling before wave 0 of a run leaves the stored
document exactly as it was. -/
theorem C9_cancellation_atomicity_witness :
    commitRun wC9doc (runWithCancel wC9adapters "raw text" wC9eff (some 0)) = wC9doc :=
  (C9_cancellation_atomicity wC9doc wC9adapters "raw text" wC9eff 0 (by decide)).1

/-- Claim C10: the embeddings stage is mocked: it returns the same static
vector for every input text, a constant function of its input. -/
theorem C10_embeddings_static (s t : String) :
    embeddingsNode s = staticEmbeddingVector ∧ embeddingsNode s = embeddingsNode t :=
  ⟨rfl, rfl⟩
